import Mathlib

/-!
# Coretime market simulator: formal model

A shallow embedding of `coretime_market.py`: a sealed-bid uniform-price
auction for a divisible resource with price clamping, a reserve floor,
priority allocation, and an exponential reserve-price controller.

Quantities, prices and supply are modelled as rationals (the Python code
computes with floats/ints; rationals give the same arithmetic exactly on
the inputs considered).  The `int()` truncation of Python is `pyInt`.  The
random tie-break draw of `parse_bids` is an injected source
`rand : ℕ → ℚ`.  The pandas length check that makes `parse_bids` raise on
mismatched inputs is modelled by an `Option` result.
-/

namespace Coretime

/-- A bid record, as built by `parse_bids`: bidder identity, requested
quantity, price, and the random tie-break key (`timing`). -/
structure Bid where
  player_id : ℕ
  quantity : ℚ
  price : ℚ
  timing : ℚ
deriving DecidableEq, Repr, Inhabited

/-- One row of the allocation table returned by `allocate_cores`. -/
structure Alloc where
  player_id : ℕ
  price : ℚ
  allocated : ℚ
deriving DecidableEq, Repr, Inhabited

/-- The dictionary returned by `run_auction`. -/
structure RoundResult where
  p_clear : ℚ
  p_market : ℚ
  capacity : ℚ
  sold : ℤ
  unsold : ℚ
  allocations : List Alloc
deriving DecidableEq, Repr, Inhabited

/-- Python's `int()` applied to a rational: truncation toward zero. -/
def pyInt (q : ℚ) : ℤ := if 0 ≤ q then ⌊q⌋ else ⌈q⌉

/-- Zip bidder ids, quantities, prices and timing draws into bid records
(the columns of the dataframe built by `parse_bids`). -/
def mkBids : List ℕ → List ℚ → List ℚ → List ℚ → List Bid
  | i :: is, q :: qs, p :: ps, t :: ts => ⟨i, q, p, t⟩ :: mkBids is qs ps ts
  | _, _, _, _ => []

/-- `parse_bids`: attaches player ids and random timing to raw
(quantities, prices).  The dataframe constructor raises when the column
lengths differ; that failure is the `none` result. -/
def parse_bids (quantities prices : List ℚ) (player_ids : List ℕ)
    (rand : ℕ → ℚ) : Option (List Bid) :=
  if quantities.length = player_ids.length ∧ prices.length = player_ids.length then
    some (mkBids player_ids quantities prices
      ((List.range player_ids.length).map rand))
  else
    none

/-- Step 1 of `compute_clearing_price`: clamp every price at
`max_acc = reserve_price * premium` (pandas `clip(upper=max_acc)`). -/
def clampBids (bids : List Bid) (max_acc : ℚ) : List Bid :=
  bids.map fun b => { b with price := min b.price max_acc }

/-- Step 2 of `compute_clearing_price`: keep only bids with
`price >= reserve_price` and `quantity > 0`. -/
def validBids (bids : List Bid) (reserve_price : ℚ) : List Bid :=
  bids.filter fun b => decide (reserve_price ≤ b.price) && decide (0 < b.quantity)

/-- The sort key of `sort_values(['price','timing'], ascending=[False,True])`:
`b` comes no later than `c` when the price of `b` is higher, or prices are
equal and the timing of `b` is no larger. -/
def bidRel (b c : Bid) : Prop :=
  c.price < b.price ∨ (b.price = c.price ∧ b.timing ≤ c.timing)

instance : DecidableRel bidRel := fun _ _ =>
  inferInstanceAs (Decidable (_ ∨ _))

instance : IsTotal Bid bidRel where
  total b c := by
    rcases lt_trichotomy b.price c.price with h | h | h
    · exact Or.inr (Or.inl h)
    · rcases le_total b.timing c.timing with ht | ht
      · exact Or.inl (Or.inr ⟨h, ht⟩)
      · exact Or.inr (Or.inr ⟨h.symm, ht⟩)
    · exact Or.inl (Or.inl h)

instance : IsTrans Bid bidRel where
  trans b c d hbc hcd := by
    rcases hbc with h1 | ⟨e1, t1⟩
    · rcases hcd with h2 | ⟨e2, _⟩
      · exact Or.inl (h2.trans h1)
      · exact Or.inl (e2 ▸ h1)
    · rcases hcd with h2 | ⟨e2, t2⟩
      · exact Or.inl (e1 ▸ h2)
      · exact Or.inr ⟨e1.trans e2, t1.trans t2⟩

/-- Step 3 of `compute_clearing_price`: sort by price descending, timing
ascending. -/
def sortBids (l : List Bid) : List Bid := List.insertionSort bidRel l

/-- Step 4 of `compute_clearing_price`: the running cumulative quantity
(`cumsum`) over a bid list, starting from `acc`. -/
def cumQty : List Bid → ℚ → List ℚ
  | [], _ => []
  | b :: bs, acc => (acc + b.quantity) :: cumQty bs (acc + b.quantity)

/-- Total requested quantity of a bid list (`quantity.sum()`). -/
def totalQty (bs : List Bid) : ℚ := (bs.map Bid.quantity).sum

/-- `np.searchsorted(xs, v, side='left')` on a sorted list: the first index
whose element is `≥ v`, or the length when there is none. -/
def searchLeft (xs : List ℚ) (v : ℚ) : ℕ :=
  match xs with
  | [] => 0
  | x :: rest => if v ≤ x then 0 else searchLeft rest v + 1

/-- Steps 4 and 5 of `compute_clearing_price`, on the already sorted valid
bids: accumulate quantities, search for the crossing index, and either
clear at the reserve price (demand below supply) or at the price of the
crossing bid. -/
def clearFromSorted (sorted : List Bid) (supply reserve_price : ℚ) :
    ℚ × ℚ × List Bid :=
  let cums := cumQty sorted 0
  let idx := searchLeft cums supply
  if sorted.length ≤ idx ∨ cums.getLastD 0 < supply then
    -- Demand < supply: clear at reserve price
    (reserve_price, (pyInt (totalQty sorted) : ℚ) / supply, sorted)
  else
    -- The clearing bid sets the price
    ((sorted.getD idx default).price,
     (pyInt (min supply (cums.getD idx 0)) : ℚ) / supply, sorted)

/-- `compute_clearing_price(bids, supply, reserve_price, premium)`:
clamp, filter, sort, accumulate, and locate the clearing price.  Returns
`(p_clear, capacity, sorted_valid_bids)`. -/
def compute_clearing_price (bids : List Bid) (supply reserve_price premium : ℚ) :
    ℚ × ℚ × List Bid :=
  let max_acc := reserve_price * premium
  let valid := validBids (clampBids bids max_acc) reserve_price
  if valid.isEmpty then (0, 0, [])
  else clearFromSorted (sortBids valid) supply reserve_price

/-- The loop body of `allocate_cores`: walk the sorted bids giving each
`min(quantity, remaining)`, stopping once remaining supply is exhausted
(the amount is recorded before the `break` test, as in the Python loop). -/
def allocTakes : List Bid → ℚ → List ℚ
  | [], _ => []
  | b :: bs, remaining =>
    let take := min b.quantity remaining
    if remaining - take ≤ 0 then [take]
    else take :: allocTakes bs (remaining - take)

/-- `allocate_cores(filtered_bids, supply, p_clear)`: returns the
allocation table, `sold = int(sum(allocs))` and `unsold = supply - sold`. -/
def allocate_cores (filtered_bids : List Bid) (supply p_clear : ℚ) :
    List Alloc × ℤ × ℚ :=
  if filtered_bids.isEmpty then ([], 0, supply)
  else
    let takes := allocTakes filtered_bids supply
    let rows := (filtered_bids.zip takes).map
      fun bt => Alloc.mk bt.1.player_id p_clear bt.2
    let sold := pyInt takes.sum
    (rows, sold, supply - (sold : ℚ))

/-- `apply_premium`: market price = clearing price * (1 + premium). -/
def apply_premium (p_clear premium : ℚ) : ℚ := p_clear * (1 + premium)

/-- `run_auction`: end-to-end single-period auction. -/
def run_auction (quantities prices : List ℚ) (player_ids : List ℕ)
    (supply reserve_price premium : ℚ) (rand : ℕ → ℚ) : Option RoundResult :=
  (parse_bids quantities prices player_ids rand).map fun bids_df =>
    let r := compute_clearing_price bids_df supply reserve_price premium
    let a := allocate_cores r.2.2 supply r.1
    { p_clear := r.1
      p_market := apply_premium r.1 premium
      capacity := r.2.1
      sold := a.2.1
      unsold := a.2.2
      allocations := a.1 }

/-- `adjust_reserve_price(p_old, capacity, desired, k, p_min)`: exponential
update on the utilization error, a minimum increment of 100 at full
capacity, floored at `p_min`. -/
noncomputable def adjust_reserve_price (p_old capacity desired k p_min : ℝ) : ℝ :=
  let p_new := p_old * Real.exp (k * (capacity - desired))
  let p_new2 := if 1 ≤ capacity then max p_new (p_old + 100) else p_new
  max p_new2 p_min

/-! ## Helper lemmas about the embedded operations -/

/-- A rational is an integer. -/
def IsIntQ (q : ℚ) : Prop := ∃ n : ℤ, q = (n : ℤ)

lemma pyInt_intCast (n : ℤ) : pyInt (n : ℚ) = n := by
  unfold pyInt
  split <;> simp

lemma pyInt_le_of_nonneg {q : ℚ} (h : 0 ≤ q) : (pyInt q : ℚ) ≤ q := by
  unfold pyInt
  rw [if_pos h]
  exact Int.floor_le q

lemma pyInt_lt_of_lt {q s : ℚ} (hq : q < s) (hs : 0 < s) : (pyInt q : ℚ) < s := by
  unfold pyInt
  split
  · exact lt_of_le_of_lt (Int.floor_le q) hq
  · rename_i h
    have hq0 : q ≤ ((0 : ℤ) : ℚ) := by exact_mod_cast le_of_lt (not_le.1 h)
    have : (⌈q⌉ : ℚ) ≤ 0 := by exact_mod_cast Int.ceil_le.2 hq0
    exact lt_of_le_of_lt this hs

lemma sortBids_perm (l : List Bid) : List.Perm (sortBids l) l :=
  List.perm_insertionSort bidRel l

lemma mem_sortBids {b : Bid} {l : List Bid} : b ∈ sortBids l ↔ b ∈ l :=
  (sortBids_perm l).mem_iff

lemma sortBids_sorted (l : List Bid) : List.Sorted bidRel (sortBids l) :=
  List.sorted_insertionSort bidRel l

lemma totalQty_sortBids (l : List Bid) : totalQty (sortBids l) = totalQty l :=
  List.Perm.sum_eq ((sortBids_perm l).map Bid.quantity)

lemma sortBids_ne_nil {l : List Bid} (h : l ≠ []) : sortBids l ≠ [] := by
  intro hc
  exact h ((hc ▸ sortBids_perm l).symm.eq_nil)

lemma cumQty_length (l : List Bid) (acc : ℚ) : (cumQty l acc).length = l.length := by
  induction l generalizing acc with
  | nil => simp [cumQty]
  | cons b bs ih => simp [cumQty, ih]

lemma cumQty_getLastD (l : List Bid) (acc : ℚ) :
    (cumQty l acc).getLastD acc = acc + totalQty l := by
  induction l generalizing acc with
  | nil => simp [cumQty, totalQty]
  | cons b bs ih =>
    simp only [cumQty, List.getLastD_cons, ih, totalQty, List.map_cons, List.sum_cons]
    ring

lemma getLastD_mem {l : List ℚ} (d : ℚ) (h : l ≠ []) : l.getLastD d ∈ l := by
  induction l generalizing d with
  | nil => exact absurd rfl h
  | cons x xs ih =>
    rw [List.getLastD_cons]
    cases xs with
    | nil => simp [List.getLastD]
    | cons y ys => exact List.mem_cons_of_mem x (ih x (by simp))

lemma searchLeft_le_length (xs : List ℚ) (v : ℚ) : searchLeft xs v ≤ xs.length := by
  induction xs with
  | nil => simp [searchLeft]
  | cons x rest ih =>
    simp only [searchLeft, List.length_cons]
    split
    · exact Nat.zero_le _
    · exact Nat.succ_le_succ ih

lemma searchLeft_lt_length {xs : List ℚ} {v : ℚ} (h : ∃ x ∈ xs, v ≤ x) :
    searchLeft xs v < xs.length := by
  induction xs with
  | nil => simp at h
  | cons x rest ih =>
    simp only [searchLeft, List.length_cons]
    split
    · exact Nat.succ_pos _
    · rename_i hx
      rcases h with ⟨y, hy, hvy⟩
      rcases List.mem_cons.1 hy with rfl | hy'
      · exact absurd hvy hx
      · exact Nat.succ_lt_succ (ih ⟨y, hy', hvy⟩)

lemma searchLeft_getD {xs : List ℚ} {v : ℚ} (h : searchLeft xs v < xs.length) :
    v ≤ xs.getD (searchLeft xs v) 0 := by
  induction xs with
  | nil => simp at h
  | cons x rest ih =>
    by_cases hx : v ≤ x
    · simp [searchLeft, hx]
    · simp only [searchLeft, if_neg hx, List.length_cons] at h ⊢
      have h' : searchLeft rest v < rest.length := Nat.lt_of_succ_lt_succ h
      simpa using ih h'

lemma searchLeft_getD_lt {xs : List ℚ} {v : ℚ} {j : ℕ} (hj : j < searchLeft xs v) :
    xs.getD j 0 < v := by
  induction xs generalizing j with
  | nil => simp [searchLeft] at hj
  | cons x rest ih =>
    by_cases hx : v ≤ x
    · simp [searchLeft, if_pos hx] at hj
    · simp only [searchLeft, if_neg hx] at hj
      cases j with
      | zero => simpa using not_le.1 hx
      | succ j' => simpa using ih (Nat.lt_of_succ_lt_succ hj)

lemma zip_map_snd_of_le {α β : Type} (l₁ : List α) (l₂ : List β)
    (h : l₂.length ≤ l₁.length) : (l₁.zip l₂).map Prod.snd = l₂ := by
  induction l₁ generalizing l₂ with
  | nil =>
    cases l₂ with
    | nil => simp
    | cons y ys => simp at h
  | cons x xs ih =>
    cases l₂ with
    | nil => simp
    | cons y ys =>
      simp only [List.zip_cons_cons, List.map_cons]
      rw [ih ys (by simpa using h)]

lemma allocTakes_length_le (l : List Bid) (r : ℚ) :
    (allocTakes l r).length ≤ l.length := by
  induction l generalizing r with
  | nil => simp [allocTakes]
  | cons b bs ih =>
    simp only [allocTakes, List.length_cons]
    split
    · simp
    · simpa using Nat.succ_le_succ (ih (r - min b.quantity r))

lemma allocTakes_pos (l : List Bid) (r : ℚ) (hr : 0 < r)
    (hq : ∀ b ∈ l, 0 < b.quantity) : ∀ t ∈ allocTakes l r, 0 < t := by
  induction l generalizing r with
  | nil => simp [allocTakes]
  | cons b bs ih =>
    have hb : 0 < b.quantity := hq b (List.mem_cons_self b bs)
    have htake : 0 < min b.quantity r := lt_min hb hr
    intro t ht
    simp only [allocTakes] at ht
    split at ht
    · rcases List.mem_singleton.1 ht with rfl
      exact htake
    · rename_i hrem
      rcases List.mem_cons.1 ht with rfl | ht'
      · exact htake
      · exact ih (r - min b.quantity r) (lt_of_not_le hrem)
          (fun c hc => hq c (List.mem_cons_of_mem b hc)) t ht'

lemma IsIntQ.min' {a b : ℚ} (ha : IsIntQ a) (hb : IsIntQ b) : IsIntQ (min a b) := by
  rcases ha with ⟨n, rfl⟩
  rcases hb with ⟨m, rfl⟩
  rcases le_total (n : ℚ) (m : ℚ) with h | h
  · exact ⟨n, min_eq_left h⟩
  · exact ⟨m, min_eq_right h⟩

lemma IsIntQ.sub' {a b : ℚ} (ha : IsIntQ a) (hb : IsIntQ b) : IsIntQ (a - b) := by
  rcases ha with ⟨n, rfl⟩
  rcases hb with ⟨m, rfl⟩
  exact ⟨n - m, by push_cast; ring⟩

lemma IsIntQ.add' {a b : ℚ} (ha : IsIntQ a) (hb : IsIntQ b) : IsIntQ (a + b) := by
  rcases ha with ⟨n, rfl⟩
  rcases hb with ⟨m, rfl⟩
  exact ⟨n + m, by push_cast; ring⟩

lemma allocTakes_sum_int (l : List Bid) (r : ℚ)
    (hl : ∀ b ∈ l, IsIntQ b.quantity) (hr : IsIntQ r) :
    IsIntQ (allocTakes l r).sum := by
  induction l generalizing r with
  | nil => exact ⟨0, by simp [allocTakes]⟩
  | cons b bs ih =>
    have hb : IsIntQ b.quantity := hl b (List.mem_cons_self b bs)
    have htake : IsIntQ (min b.quantity r) := hb.min' hr
    simp only [allocTakes]
    split
    · simpa using htake
    · simp only [List.sum_cons]
      exact htake.add' (ih (r - min b.quantity r)
        (fun c hc => hl c (List.mem_cons_of_mem b hc)) (hr.sub' htake))

lemma allocate_cores_allocated_eq_takes (filtered : List Bid) (supply p_clear : ℚ)
    (h : filtered ≠ []) :
    ((allocate_cores filtered supply p_clear).1.map Alloc.allocated)
      = allocTakes filtered supply := by
  unfold allocate_cores
  rw [if_neg (by simpa [List.isEmpty_iff] using h)]
  simp only [List.map_map]
  have : (Alloc.allocated ∘ fun bt : Bid × ℚ => Alloc.mk bt.1.player_id p_clear bt.2)
      = Prod.snd := rfl
  rw [this, zip_map_snd_of_le _ _ (allocTakes_length_le filtered supply)]

lemma clearFromSorted_demand_lt (sorted : List Bid) (supply reserve_price : ℚ)
    (h : totalQty sorted < supply) :
    clearFromSorted sorted supply reserve_price
      = (reserve_price, (pyInt (totalQty sorted) : ℚ) / supply, sorted) := by
  have hlast : (cumQty sorted 0).getLastD 0 = totalQty sorted := by
    simpa using cumQty_getLastD sorted 0
  simp only [clearFromSorted]
  rw [if_pos (Or.inr (by rw [hlast]; exact h))]

lemma clearFromSorted_crossing (sorted : List Bid) (supply reserve_price : ℚ)
    (hne : sorted ≠ []) (h : supply ≤ totalQty sorted) :
    searchLeft (cumQty sorted 0) supply < sorted.length ∧
    supply ≤ (cumQty sorted 0).getD (searchLeft (cumQty sorted 0) supply) 0 ∧
    (∀ j < searchLeft (cumQty sorted 0) supply, (cumQty sorted 0).getD j 0 < supply) ∧
    clearFromSorted sorted supply reserve_price
      = ((sorted.getD (searchLeft (cumQty sorted 0) supply) default).price,
         (pyInt (min supply
            ((cumQty sorted 0).getD (searchLeft (cumQty sorted 0) supply) 0)) : ℚ) / supply,
         sorted) := by
  have hcne : cumQty sorted 0 ≠ [] := by
    intro hc
    have := cumQty_length sorted 0
    rw [hc] at this
    exact hne (List.length_eq_zero.1 this.symm)
  have hlast : (cumQty sorted 0).getLastD 0 = totalQty sorted := by
    simpa using cumQty_getLastD sorted 0
  have hmem : (cumQty sorted 0).getLastD 0 ∈ cumQty sorted 0 := getLastD_mem 0 hcne
  have hidx : searchLeft (cumQty sorted 0) supply < (cumQty sorted 0).length :=
    searchLeft_lt_length ⟨_, hmem, hlast ▸ h⟩
  have hidx' : searchLeft (cumQty sorted 0) supply < sorted.length := by
    rwa [cumQty_length] at hidx
  refine ⟨hidx', searchLeft_getD hidx, fun j hj => searchLeft_getD_lt hj, ?_⟩
  simp only [clearFromSorted]
  rw [if_neg]
  push_neg
  exact ⟨hidx', hlast ▸ h⟩

lemma validBids_empty_compute (bids : List Bid) (supply reserve_price premium : ℚ)
    (h : validBids (clampBids bids (reserve_price * premium)) reserve_price = []) :
    compute_clearing_price bids supply reserve_price premium = (0, 0, []) := by
  simp only [compute_clearing_price]
  rw [h]
  rfl

lemma compute_clearing_price_eq_clearFromSorted (bids : List Bid)
    (supply reserve_price premium : ℚ)
    (h : validBids (clampBids bids (reserve_price * premium)) reserve_price ≠ []) :
    compute_clearing_price bids supply reserve_price premium
      = clearFromSorted
          (sortBids (validBids (clampBids bids (reserve_price * premium)) reserve_price))
          supply reserve_price := by
  simp only [compute_clearing_price]
  rw [if_neg (by simpa [List.isEmpty_iff] using h)]

lemma validBids_ne_nil_of_total (bids : List Bid) (supply reserve_price premium : ℚ)
    (hs : 0 < supply)
    (hge : supply ≤ totalQty (validBids (clampBids bids (reserve_price * premium)) reserve_price)) :
    validBids (clampBids bids (reserve_price * premium)) reserve_price ≠ [] := by
  intro hc
  rw [hc] at hge
  simp [totalQty] at hge
  exact absurd (lt_of_lt_of_le hs hge) (lt_irrefl 0)

lemma compute_sorted_cases (bids : List Bid) (supply reserve_price premium : ℚ) :
    (compute_clearing_price bids supply reserve_price premium).2.2 = []
    ∨ (compute_clearing_price bids supply reserve_price premium).2.2
        = sortBids (validBids (clampBids bids (reserve_price * premium)) reserve_price) := by
  by_cases h : validBids (clampBids bids (reserve_price * premium)) reserve_price = []
  · left
    rw [validBids_empty_compute bids supply reserve_price premium h]
  · right
    rw [compute_clearing_price_eq_clearFromSorted bids supply reserve_price premium h]
    simp only [clearFromSorted]
    split <;> rfl

/-! ## Claim theorems -/

/-- C1, counterexample: the example outputs are not reachable with any one
premium argument.  Passing premium = 1 (the premium fraction named by the
claim) gives a ceiling of 100, a clearing price of 100 and market price
200; passing premium = 2 (which produces the ceiling 200 named by the
claim) gives clearing price 150 but market price 150 * (1 + 2) = 450, not
300, because `apply_premium` multiplies by one plus the same argument that
the ceiling multiplies directly. -/
theorem end_to_end_example_counterexample :
    (run_auction [6, 5, 4] [250, 150, 90] [1, 2, 3] 10 100 1
        (fun i => (i : ℚ) / 10)).map RoundResult.p_clear = some 100
    ∧ (run_auction [6, 5, 4] [250, 150, 90] [1, 2, 3] 10 100 1
        (fun i => (i : ℚ) / 10)).map RoundResult.p_clear ≠ some 150
    ∧ (run_auction [6, 5, 4] [250, 150, 90] [1, 2, 3] 10 100 2
        (fun i => (i : ℚ) / 10)).map RoundResult.p_market = some 450
    ∧ (run_auction [6, 5, 4] [250, 150, 90] [1, 2, 3] 10 100 2
        (fun i => (i : ℚ) / 10)).map RoundResult.p_market ≠ some 300 := by
  have hr3 : List.range 3 = [0, 1, 2] := rfl
  have hparse : parse_bids [6, 5, 4] [250, 150, 90] [1, 2, 3] (fun i => (i : ℚ) / 10)
      = some [⟨1, 6, 250, 0⟩, ⟨2, 5, 150, 1/10⟩, ⟨3, 4, 90, 1/5⟩] := by
    norm_num [parse_bids, mkBids, hr3]
  have h1 : run_auction [6, 5, 4] [250, 150, 90] [1, 2, 3] 10 100 1
      (fun i => (i : ℚ) / 10)
      = some { p_clear := 100, p_market := 200, capacity := 1, sold := 10,
               unsold := 0, allocations := [⟨1, 100, 6⟩, ⟨2, 100, 4⟩] } := by
    have hvalid : validBids (clampBids
        [Bid.mk 1 6 250 0, Bid.mk 2 5 150 (1/10), Bid.mk 3 4 90 (1/5)] (100 * 1)) 100
        = [Bid.mk 1 6 100 0, Bid.mk 2 5 100 (1/10)] := by
      norm_num [validBids, clampBids, min_def]
    have hb : bidRel (Bid.mk 1 6 100 0) (Bid.mk 2 5 100 (1/10)) := by
      norm_num [bidRel]
    have hsort : sortBids [Bid.mk 1 6 100 0, Bid.mk 2 5 100 (1/10)]
        = [Bid.mk 1 6 100 0, Bid.mk 2 5 100 (1/10)] := by
      simp only [sortBids, List.insertionSort, List.orderedInsert, if_pos hb]
    have hclear : compute_clearing_price
        [Bid.mk 1 6 250 0, Bid.mk 2 5 150 (1/10), Bid.mk 3 4 90 (1/5)] 10 100 1
        = (100, 1, [Bid.mk 1 6 100 0, Bid.mk 2 5 100 (1/10)]) := by
      rw [compute_clearing_price_eq_clearFromSorted _ _ _ _ (by rw [hvalid]; simp),
          hvalid, hsort]
      norm_num [clearFromSorted, cumQty, searchLeft, pyInt, min_def,
        List.getLastD, List.getD]
    have halloc : allocate_cores [Bid.mk 1 6 100 0, Bid.mk 2 5 100 (1/10)] 10 100
        = ([⟨1, 100, 6⟩, ⟨2, 100, 4⟩], 10, 0) := by
      norm_num [allocate_cores, allocTakes, pyInt, min_def]
    simp only [run_auction, hparse, Option.map_some', hclear, halloc, apply_premium]
    norm_num
  have h2 : run_auction [6, 5, 4] [250, 150, 90] [1, 2, 3] 10 100 2
      (fun i => (i : ℚ) / 10)
      = some { p_clear := 150, p_market := 450, capacity := 1, sold := 10,
               unsold := 0, allocations := [⟨1, 150, 6⟩, ⟨2, 150, 4⟩] } := by
    have hvalid : validBids (clampBids
        [Bid.mk 1 6 250 0, Bid.mk 2 5 150 (1/10), Bid.mk 3 4 90 (1/5)] (100 * 2)) 100
        = [Bid.mk 1 6 200 0, Bid.mk 2 5 150 (1/10)] := by
      norm_num [validBids, clampBids, min_def]
    have hb : bidRel (Bid.mk 1 6 200 0) (Bid.mk 2 5 150 (1/10)) := by
      norm_num [bidRel]
    have hsort : sortBids [Bid.mk 1 6 200 0, Bid.mk 2 5 150 (1/10)]
        = [Bid.mk 1 6 200 0, Bid.mk 2 5 150 (1/10)] := by
      simp only [sortBids, List.insertionSort, List.orderedInsert, if_pos hb]
    have hclear : compute_clearing_price
        [Bid.mk 1 6 250 0, Bid.mk 2 5 150 (1/10), Bid.mk 3 4 90 (1/5)] 10 100 2
        = (150, 1, [Bid.mk 1 6 200 0, Bid.mk 2 5 150 (1/10)]) := by
      rw [compute_clearing_price_eq_clearFromSorted _ _ _ _ (by rw [hvalid]; simp),
          hvalid, hsort]
      norm_num [clearFromSorted, cumQty, searchLeft, pyInt, min_def,
        List.getLastD, List.getD]
    have halloc : allocate_cores [Bid.mk 1 6 200 0, Bid.mk 2 5 150 (1/10)] 10 150
        = ([⟨1, 150, 6⟩, ⟨2, 150, 4⟩], 10, 0) := by
      norm_num [allocate_cores, allocTakes, pyInt, min_def]
    simp only [run_auction, hparse, Option.map_some', hclear, halloc, apply_premium]
    norm_num
  refine ⟨by rw [h1]; rfl, by rw [h1]; simp, by rw [h2]; rfl, by rw [h2]; simp⟩

/-- C1 (amended): calling `run_auction` with premium = 2 — the raw
multiplier that yields the ceiling 200 of the example — returns clearing
price 150, capacity 1, allocations of 6 and 4 units at price 150 to
bidders 1 and 2, sold 10, unsold 0, and market price 450 (not 300), for
every tie-break draw, since the two surviving prices are distinct. -/
theorem end_to_end_example (rand : ℕ → ℚ) :
    run_auction [6, 5, 4] [250, 150, 90] [1, 2, 3] 10 100 2 rand
      = some { p_clear := 150, p_market := 450, capacity := 1, sold := 10,
               unsold := 0, allocations := [⟨1, 150, 6⟩, ⟨2, 150, 4⟩] } := by
  have hr3 : List.range 3 = [0, 1, 2] := rfl
  have hparse : parse_bids [6, 5, 4] [250, 150, 90] [1, 2, 3] rand
      = some [⟨1, 6, 250, rand 0⟩, ⟨2, 5, 150, rand 1⟩, ⟨3, 4, 90, rand 2⟩] := by
    simp [parse_bids, mkBids, hr3]
  have hvalid : validBids (clampBids
      [Bid.mk 1 6 250 (rand 0), Bid.mk 2 5 150 (rand 1), Bid.mk 3 4 90 (rand 2)]
      (100 * 2)) 100
      = [Bid.mk 1 6 200 (rand 0), Bid.mk 2 5 150 (rand 1)] := by
    norm_num [validBids, clampBids, min_def]
  have hb : bidRel (Bid.mk 1 6 200 (rand 0)) (Bid.mk 2 5 150 (rand 1)) := by
    norm_num [bidRel]
  have hsort : sortBids [Bid.mk 1 6 200 (rand 0), Bid.mk 2 5 150 (rand 1)]
      = [Bid.mk 1 6 200 (rand 0), Bid.mk 2 5 150 (rand 1)] := by
    simp only [sortBids, List.insertionSort, List.orderedInsert, if_pos hb]
  have hclear : compute_clearing_price
      [Bid.mk 1 6 250 (rand 0), Bid.mk 2 5 150 (rand 1), Bid.mk 3 4 90 (rand 2)]
      10 100 2
      = (150, 1, [Bid.mk 1 6 200 (rand 0), Bid.mk 2 5 150 (rand 1)]) := by
    rw [compute_clearing_price_eq_clearFromSorted _ _ _ _ (by rw [hvalid]; simp),
        hvalid, hsort]
    norm_num [clearFromSorted, cumQty, searchLeft, pyInt, min_def,
      List.getLastD, List.getD]
  have halloc : allocate_cores [Bid.mk 1 6 200 (rand 0), Bid.mk 2 5 150 (rand 1)] 10 150
      = ([⟨1, 150, 6⟩, ⟨2, 150, 4⟩], 10, 0) := by
    norm_num [allocate_cores, allocTakes, pyInt, min_def]
  simp only [run_auction, hparse, Option.map_some', hclear, halloc, apply_premium]
  norm_num

/-- C2, counterexample: with the non-integer quantity 5/2 and supply 5 the
allocator reports `sold = int(5/2) = 2`, which differs from the allocated
sum 5/2, refuting the claim that `sold == sum(allocated_quantity)` holds
for non-integer reals. -/
theorem sold_sum_counterexample :
    allocate_cores [⟨1, 5/2, 100, 0⟩] 5 100 = ([⟨1, 100, 5/2⟩], 2, 3)
    ∧ ¬ (((allocate_cores [⟨1, 5/2, 100, 0⟩] 5 100).2.1 : ℚ)
        = ((allocate_cores [⟨1, 5/2, 100, 0⟩] 5 100).1.map Alloc.allocated).sum) := by
  constructor
  · norm_num [allocate_cores, allocTakes, pyInt, min_def]
  · norm_num [allocate_cores, allocTakes, pyInt, min_def]

/-- C2 (amended): for every supply > 0 and filtered bids with positive
quantities, `sold + unsold == supply` holds exactly; `sold` is the integer
truncation of the allocated sum, so `sold == sum(allocated_quantity)`
holds when the quantities and supply are integers, but not for arbitrary
non-integer reals. -/
theorem sold_unsold_conservation (filtered : List Bid) (supply p_clear : ℚ)
    (_hs : 0 < supply) (_hq : ∀ b ∈ filtered, 0 < b.quantity) :
    ((allocate_cores filtered supply p_clear).2.1 : ℚ)
        + (allocate_cores filtered supply p_clear).2.2 = supply
    ∧ (allocate_cores filtered supply p_clear).2.1
        = pyInt (((allocate_cores filtered supply p_clear).1.map Alloc.allocated).sum)
    ∧ ((∀ b ∈ filtered, IsIntQ b.quantity) → IsIntQ supply →
        ((allocate_cores filtered supply p_clear).2.1 : ℚ)
          = ((allocate_cores filtered supply p_clear).1.map Alloc.allocated).sum) := by
  by_cases h : filtered = []
  · subst h
    refine ⟨by simp [allocate_cores], by simp [allocate_cores, pyInt], ?_⟩
    intro _ _
    simp [allocate_cores]
  · have hmap := allocate_cores_allocated_eq_takes filtered supply p_clear h
    have halloc : allocate_cores filtered supply p_clear
        = ((filtered.zip (allocTakes filtered supply)).map
             (fun bt => Alloc.mk bt.1.player_id p_clear bt.2),
           pyInt (allocTakes filtered supply).sum,
           supply - (pyInt (allocTakes filtered supply).sum : ℚ)) := by
      simp only [allocate_cores]
      rw [if_neg (by simpa [List.isEmpty_iff] using h)]
    refine ⟨?_, ?_, ?_⟩
    · rw [halloc]
      ring
    · rw [hmap, halloc]
    · intro hint hsup
      obtain ⟨n, hn⟩ := allocTakes_sum_int filtered supply hint hsup
      rw [hmap, halloc, hn, pyInt_intCast]

/-- C2 witness: the conservation theorem applied to a concrete integral
input. -/
theorem sold_unsold_conservation_witness :
    0 < (10 : ℚ) ∧ (∀ b ∈ [Bid.mk 1 6 200 0, Bid.mk 2 5 150 0], 0 < b.quantity) ∧
    (((allocate_cores [Bid.mk 1 6 200 0, Bid.mk 2 5 150 0] 10 150).2.1 : ℚ)
        + (allocate_cores [Bid.mk 1 6 200 0, Bid.mk 2 5 150 0] 10 150).2.2 = 10
    ∧ (allocate_cores [Bid.mk 1 6 200 0, Bid.mk 2 5 150 0] 10 150).2.1
        = pyInt (((allocate_cores [Bid.mk 1 6 200 0, Bid.mk 2 5 150 0] 10 150).1.map Alloc.allocated).sum)
    ∧ ((∀ b ∈ [Bid.mk 1 6 200 0, Bid.mk 2 5 150 0], IsIntQ b.quantity) → IsIntQ 10 →
        ((allocate_cores [Bid.mk 1 6 200 0, Bid.mk 2 5 150 0] 10 150).2.1 : ℚ)
          = ((allocate_cores [Bid.mk 1 6 200 0, Bid.mk 2 5 150 0] 10 150).1.map Alloc.allocated).sum)) :=
  ⟨by norm_num, by decide,
    sold_unsold_conservation [Bid.mk 1 6 200 0, Bid.mk 2 5 150 0] 10 150
      (by norm_num) (by decide)⟩

/-- C3, counterexample: (a) when no bid survives the filter the code
returns clearing price 0, not the reserve price 100, although total
surviving demand 0 is below supply; (b) with the surviving non-integer
quantity 5/2 the capacity is `int(5/2)/10 = 1/5`, not `(5/2)/10`. -/
theorem demand_below_supply_counterexample :
    (compute_clearing_price [⟨1, 4, 90, 0⟩] 10 100 1).1 = 0
    ∧ (compute_clearing_price [⟨1, 4, 90, 0⟩] 10 100 1).1 ≠ 100
    ∧ (compute_clearing_price [⟨1, 5/2, 100, 0⟩] 10 100 1).2.1 = 1/5
    ∧ (compute_clearing_price [⟨1, 5/2, 100, 0⟩] 10 100 1).2.1 ≠ (5/2) / 10 := by
  refine ⟨?_, ?_, ?_, ?_⟩ <;>
    norm_num [compute_clearing_price, clampBids, validBids, clearFromSorted, sortBids,
      List.insertionSort, cumQty, searchLeft, totalQty, pyInt, min_def]

/-- C3 (amended): when at least one bid survives and total surviving
quantity is below supply, the clearing price is the reserve price and the
capacity is the integer truncation of total quantity divided by supply,
a value strictly below 1 (equal to total/supply when the total is an
integer). -/
theorem demand_below_supply_clears_at_reserve (bids : List Bid)
    (supply reserve_price premium : ℚ) (hs : 0 < supply)
    (hne : validBids (clampBids bids (reserve_price * premium)) reserve_price ≠ [])
    (hlt : totalQty (validBids (clampBids bids (reserve_price * premium)) reserve_price) < supply) :
    (compute_clearing_price bids supply reserve_price premium).1 = reserve_price
    ∧ (compute_clearing_price bids supply reserve_price premium).2.1
        = (pyInt (totalQty (validBids (clampBids bids (reserve_price * premium)) reserve_price)) : ℚ) / supply
    ∧ (compute_clearing_price bids supply reserve_price premium).2.1 < 1
    ∧ (∀ n : ℤ,
        totalQty (validBids (clampBids bids (reserve_price * premium)) reserve_price) = (n : ℚ) →
        (compute_clearing_price bids supply reserve_price premium).2.1
          = totalQty (validBids (clampBids bids (reserve_price * premium)) reserve_price) / supply) := by
  have hst : totalQty (sortBids (validBids (clampBids bids (reserve_price * premium)) reserve_price))
      = totalQty (validBids (clampBids bids (reserve_price * premium)) reserve_price) :=
    totalQty_sortBids _
  have hcomp : compute_clearing_price bids supply reserve_price premium
      = (reserve_price,
         (pyInt (totalQty (sortBids (validBids (clampBids bids (reserve_price * premium)) reserve_price))) : ℚ) / supply,
         sortBids (validBids (clampBids bids (reserve_price * premium)) reserve_price)) := by
    rw [compute_clearing_price_eq_clearFromSorted bids supply reserve_price premium hne,
        clearFromSorted_demand_lt _ _ _ (by rw [hst]; exact hlt)]
  rw [hcomp]
  refine ⟨rfl, by rw [hst], ?_, ?_⟩
  · have h1 : (pyInt (totalQty (sortBids (validBids (clampBids bids (reserve_price * premium)) reserve_price))) : ℚ) < supply := by
      rw [hst]
      exact pyInt_lt_of_lt hlt hs
    exact (div_lt_one hs).2 h1
  · intro n hn
    rw [hst, hn, pyInt_intCast]

/-- C3 witness: one surviving bid of quantity 3 against supply 10 clears
at the reserve price with capacity 3/10. -/
theorem demand_below_supply_witness :
    0 < (10 : ℚ)
    ∧ validBids (clampBids [Bid.mk 1 3 150 0] (100 * 2)) 100 ≠ []
    ∧ totalQty (validBids (clampBids [Bid.mk 1 3 150 0] (100 * 2)) 100) < 10
    ∧ ((compute_clearing_price [Bid.mk 1 3 150 0] 10 100 2).1 = 100
    ∧ (compute_clearing_price [Bid.mk 1 3 150 0] 10 100 2).2.1
        = (pyInt (totalQty (validBids (clampBids [Bid.mk 1 3 150 0] (100 * 2)) 100)) : ℚ) / 10
    ∧ (compute_clearing_price [Bid.mk 1 3 150 0] 10 100 2).2.1 < 1
    ∧ (∀ n : ℤ,
        totalQty (validBids (clampBids [Bid.mk 1 3 150 0] (100 * 2)) 100) = (n : ℚ) →
        (compute_clearing_price [Bid.mk 1 3 150 0] 10 100 2).2.1
          = totalQty (validBids (clampBids [Bid.mk 1 3 150 0] (100 * 2)) 100) / 10)) :=
  ⟨by norm_num, by norm_num [validBids, clampBids, min_def],
    by norm_num [validBids, clampBids, totalQty, min_def],
    demand_below_supply_clears_at_reserve [Bid.mk 1 3 150 0] 10 100 2
      (by norm_num) (by norm_num [validBids, clampBids, min_def])
      (by norm_num [validBids, clampBids, totalQty, min_def])⟩

/-- C4, counterexample: with the non-integer supply 5/2 and surviving
demand 3 ≥ 5/2, the capacity is `int(5/2)/(5/2) = 4/5`, not exactly 1. -/
theorem crossing_capacity_counterexample :
    (5/2 : ℚ) ≤ totalQty (validBids (clampBids [⟨1, 3, 150, 0⟩] (100 * 1)) 100)
    ∧ (compute_clearing_price [⟨1, 3, 150, 0⟩] (5/2) 100 1).2.1 = 4/5
    ∧ (compute_clearing_price [⟨1, 3, 150, 0⟩] (5/2) 100 1).2.1 ≠ 1 := by
  refine ⟨?_, ?_, ?_⟩ <;>
    norm_num [compute_clearing_price, clampBids, validBids, clearFromSorted, sortBids,
      List.insertionSort, cumQty, searchLeft, totalQty, pyInt, min_def]

/-- C4 (amended): when total surviving quantity reaches supply > 0, the
clearing price is the price of the bid at the first position of the
sorted order whose cumulative quantity reaches supply, and the capacity is
the integer truncation of supply divided by supply — exactly 1 whenever
supply is an integer, but not for non-integer supply. -/
theorem crossing_sets_price (bids : List Bid) (supply reserve_price premium : ℚ)
    (hs : 0 < supply)
    (hge : supply ≤ totalQty (validBids (clampBids bids (reserve_price * premium)) reserve_price)) :
    ∃ i, i < (sortBids (validBids (clampBids bids (reserve_price * premium)) reserve_price)).length
      ∧ (∀ j < i,
          (cumQty (sortBids (validBids (clampBids bids (reserve_price * premium)) reserve_price)) 0).getD j 0 < supply)
      ∧ supply ≤ (cumQty (sortBids (validBids (clampBids bids (reserve_price * premium)) reserve_price)) 0).getD i 0
      ∧ (compute_clearing_price bids supply reserve_price premium).1
          = ((sortBids (validBids (clampBids bids (reserve_price * premium)) reserve_price)).getD i default).price
      ∧ (compute_clearing_price bids supply reserve_price premium).2.1 = (pyInt supply : ℚ) / supply
      ∧ (∀ n : ℤ, supply = (n : ℚ) →
          (compute_clearing_price bids supply reserve_price premium).2.1 = 1) := by
  have hne : validBids (clampBids bids (reserve_price * premium)) reserve_price ≠ [] :=
    validBids_ne_nil_of_total bids supply reserve_price premium hs hge
  have hsne : sortBids (validBids (clampBids bids (reserve_price * premium)) reserve_price) ≠ [] :=
    sortBids_ne_nil hne
  have hts : supply ≤ totalQty (sortBids (validBids (clampBids bids (reserve_price * premium)) reserve_price)) := by
    rw [totalQty_sortBids]
    exact hge
  obtain ⟨hidx, hge2, hlt2, heq⟩ :=
    clearFromSorted_crossing
      (sortBids (validBids (clampBids bids (reserve_price * premium)) reserve_price))
      supply reserve_price hsne hts
  have hcomp := compute_clearing_price_eq_clearFromSorted bids supply reserve_price premium hne
  refine ⟨_, hidx, hlt2, hge2, ?_, ?_, ?_⟩
  · rw [hcomp, heq]
  · rw [hcomp, heq, min_eq_left hge2]
  · intro n hn
    rw [hcomp, heq, min_eq_left hge2, hn, pyInt_intCast]
    have hn0 : (n : ℚ) ≠ 0 := by
      rw [← hn]
      exact ne_of_gt hs
    exact div_self hn0

/-- C4 witness: one bid of quantity 3 against integer supply 2 clears at
the clamped bid price with capacity exactly 1. -/
theorem crossing_sets_price_witness :
    0 < (2 : ℚ)
    ∧ (2 : ℚ) ≤ totalQty (validBids (clampBids [Bid.mk 1 3 150 0] (100 * 2)) 100)
    ∧ (∃ i, i < (sortBids (validBids (clampBids [Bid.mk 1 3 150 0] (100 * 2)) 100)).length
      ∧ (∀ j < i,
          (cumQty (sortBids (validBids (clampBids [Bid.mk 1 3 150 0] (100 * 2)) 100)) 0).getD j 0 < 2)
      ∧ (2 : ℚ) ≤ (cumQty (sortBids (validBids (clampBids [Bid.mk 1 3 150 0] (100 * 2)) 100)) 0).getD i 0
      ∧ (compute_clearing_price [Bid.mk 1 3 150 0] 2 100 2).1
          = ((sortBids (validBids (clampBids [Bid.mk 1 3 150 0] (100 * 2)) 100)).getD i default).price
      ∧ (compute_clearing_price [Bid.mk 1 3 150 0] 2 100 2).2.1 = (pyInt 2 : ℚ) / 2
      ∧ (∀ n : ℤ, (2 : ℚ) = (n : ℚ) →
          (compute_clearing_price [Bid.mk 1 3 150 0] 2 100 2).2.1 = 1)) :=
  ⟨by norm_num, by norm_num [validBids, clampBids, totalQty, min_def],
    crossing_sets_price [Bid.mk 1 3 150 0] 2 100 2 (by norm_num)
      (by norm_num [validBids, clampBids, totalQty, min_def])⟩

/-- C5: with a non-negative reserve price and premium factor at least 1,
every clamped price — and hence every price in the sorted filtered output
of the clearing engine — is at most `reserve_price * (1 + premium)`. -/
theorem price_ceiling_bound (bids : List Bid) (supply reserve_price premium : ℚ)
    (hr : 0 ≤ reserve_price) (_hp : 1 ≤ premium) :
    (∀ b ∈ clampBids bids (reserve_price * premium),
        b.price ≤ reserve_price * (1 + premium))
    ∧ (∀ b ∈ (compute_clearing_price bids supply reserve_price premium).2.2,
        b.price ≤ reserve_price * (1 + premium)) := by
  have hceil : reserve_price * premium ≤ reserve_price * (1 + premium) :=
    mul_le_mul_of_nonneg_left (by linarith) hr
  have h1 : ∀ b ∈ clampBids bids (reserve_price * premium),
      b.price ≤ reserve_price * (1 + premium) := by
    intro b hb
    rcases List.mem_map.1 hb with ⟨a, _, rfl⟩
    exact le_trans (min_le_right _ _) hceil
  refine ⟨h1, ?_⟩
  intro b hb
  rcases compute_sorted_cases bids supply reserve_price premium with hc | hc
  · rw [hc] at hb
    simp at hb
  · rw [hc] at hb
    exact h1 b (List.mem_of_mem_filter (mem_sortBids.1 hb))

/-- C5 witness: the ceiling bound at a concrete over-priced bid. -/
theorem price_ceiling_bound_witness :
    0 ≤ (100 : ℚ) ∧ 1 ≤ (2 : ℚ)
    ∧ ((∀ b ∈ clampBids [Bid.mk 1 6 250 0] (100 * 2), b.price ≤ 100 * (1 + 2))
    ∧ (∀ b ∈ (compute_clearing_price [Bid.mk 1 6 250 0] 10 100 2).2.2,
        b.price ≤ 100 * (1 + 2))) :=
  ⟨by norm_num, by norm_num,
    price_ceiling_bound [Bid.mk 1 6 250 0] 10 100 2 (by norm_num) (by norm_num)⟩

/-- C6, counterexample: at capacity = desired = 1 the minimum-increment
rule fires and the reserve moves from 100 to 200; at capacity = desired
with current price 1/2 below the floor 1 the result is the floor, not the
current price.  The update is not the identity at capacity = desired. -/
theorem reserve_fixed_point_counterexample :
    adjust_reserve_price 100 1 1 1 1 = 200
    ∧ adjust_reserve_price 100 1 1 1 1 ≠ 100
    ∧ adjust_reserve_price (1/2) (1/2) (1/2) 1 1 = 1
    ∧ adjust_reserve_price (1/2) (1/2) (1/2) 1 1 ≠ 1/2 := by
  have h1 : adjust_reserve_price 100 1 1 1 1 = 200 := by
    simp only [adjust_reserve_price]
    rw [sub_self, mul_zero, Real.exp_zero, mul_one, if_pos (le_refl (1 : ℝ)),
        max_eq_right (by norm_num : (100 : ℝ) ≤ 100 + 100),
        max_eq_left (by norm_num : (1 : ℝ) ≤ 100 + 100)]
    norm_num
  have h2 : adjust_reserve_price (1/2) (1/2) (1/2) 1 1 = 1 := by
    simp only [adjust_reserve_price]
    rw [sub_self, mul_zero, Real.exp_zero, mul_one,
        if_neg (by norm_num : ¬ (1 : ℝ) ≤ 1/2),
        max_eq_right (by norm_num : (1/2 : ℝ) ≤ 1)]
  exact ⟨h1, by rw [h1]; norm_num, h2, by rw [h2]; norm_num⟩

/-- C6 (amended): the reserve update is the identity at
capacity = desired provided capacity < 1 (so the saturation increment does
not fire) and the current price is at least the floor. -/
theorem reserve_fixed_point (p_old capacity desired k p_min : ℝ)
    (_hk : 0 < k) (hcd : capacity = desired) (hc : capacity < 1)
    (hpm : p_min ≤ p_old) :
    adjust_reserve_price p_old capacity desired k p_min = p_old := by
  simp only [adjust_reserve_price]
  rw [hcd, sub_self, mul_zero, Real.exp_zero, mul_one,
      if_neg (not_le.2 (hcd ▸ hc)), max_eq_left hpm]

/-- C6 witness: the amended fixed-point property at a concrete input. -/
theorem reserve_fixed_point_witness :
    (0 : ℝ) < 1 ∧ (1/2 : ℝ) = 1/2 ∧ (1/2 : ℝ) < 1 ∧ (1 : ℝ) ≤ 5
    ∧ adjust_reserve_price 5 (1/2) (1/2) 1 1 = 5 :=
  ⟨by norm_num, rfl, by norm_num, by norm_num,
    reserve_fixed_point 5 (1/2) (1/2) 1 1 (by norm_num) rfl (by norm_num) (by norm_num)⟩

/-- C7: whenever capacity ≥ 1 the updated reserve price is at least the
current price plus the fixed increment 100, and the result is never below
the floor `p_min`. -/
theorem reserve_increment_and_floor (p_old capacity desired k p_min : ℝ) :
    (1 ≤ capacity → p_old + 100 ≤ adjust_reserve_price p_old capacity desired k p_min)
    ∧ p_min ≤ adjust_reserve_price p_old capacity desired k p_min := by
  constructor
  · intro hc
    simp only [adjust_reserve_price]
    rw [if_pos hc]
    exact le_trans (le_max_right _ _) (le_max_left _ _)
  · simp only [adjust_reserve_price]
    exact le_max_right _ _

/-- C7 witness: the increment and floor bounds at a concrete saturated
round. -/
theorem reserve_increment_and_floor_witness :
    (1 : ℝ) ≤ 1
    ∧ (100 : ℝ) + 100 ≤ adjust_reserve_price 100 1 (1/2) 1 1
    ∧ (1 : ℝ) ≤ adjust_reserve_price 100 1 (1/2) 1 1 :=
  ⟨le_refl 1,
    (reserve_increment_and_floor 100 1 (1/2) 1 1).1 (le_refl 1),
    (reserve_increment_and_floor 100 1 (1/2) 1 1).2⟩

/-- C9: when every bid is clamped below the reserve or has non-positive
quantity, the clearing engine returns clearing price 0, capacity 0 and an
empty sorted set, and the allocator on the empty set returns an empty
table with sold 0 and unsold = supply. -/
theorem no_valid_bids_outcome (bids : List Bid) (supply reserve_price premium p_any : ℚ)
    (h : ∀ b ∈ bids,
        min b.price (reserve_price * premium) < reserve_price ∨ b.quantity ≤ 0) :
    compute_clearing_price bids supply reserve_price premium = (0, 0, [])
    ∧ allocate_cores [] supply p_any = ([], 0, supply) := by
  constructor
  · apply validBids_empty_compute
    unfold validBids
    rw [List.filter_eq_nil_iff]
    intro b hb
    rcases List.mem_map.1 hb with ⟨a, ha, rfl⟩
    simp only [Bool.and_eq_true, decide_eq_true_eq, not_and]
    intro hple hqty
    rcases h a ha with hlo | hq0
    · exact absurd hple (not_le.2 hlo)
    · exact absurd hqty (not_lt.2 hq0)
  · rfl

/-- C9 witness: a single bid below reserve yields the no-demand outcome. -/
theorem no_valid_bids_outcome_witness :
    (∀ b ∈ [Bid.mk 1 4 90 0], min b.price (100 * 1) < 100 ∨ b.quantity ≤ 0)
    ∧ (compute_clearing_price [Bid.mk 1 4 90 0] 10 100 1 = (0, 0, [])
    ∧ allocate_cores [] 10 7 = ([], 0, (10 : ℚ))) :=
  ⟨by norm_num [min_def], no_valid_bids_outcome [Bid.mk 1 4 90 0] 10 100 1 7
    (by norm_num [min_def])⟩

/-- C10: with positive supply and positive requested quantities, every row
of the allocation table has a strictly positive allocated quantity. -/
theorem allocations_positive (filtered : List Bid) (supply p_clear : ℚ)
    (hs : 0 < supply) (hq : ∀ b ∈ filtered, 0 < b.quantity) :
    ∀ a ∈ (allocate_cores filtered supply p_clear).1, 0 < a.allocated := by
  intro a ha
  by_cases h : filtered = []
  · subst h
    simp [allocate_cores] at ha
  · simp only [allocate_cores] at ha
    rw [if_neg (by simpa [List.isEmpty_iff] using h)] at ha
    simp only [List.mem_map] at ha
    rcases ha with ⟨bt, hbt, rfl⟩
    exact allocTakes_pos filtered supply hs hq bt.2 (List.of_mem_zip hbt).2

/-- C10 witness: positivity of allocations on a concrete oversubscribed
round. -/
theorem allocations_positive_witness :
    0 < (10 : ℚ)
    ∧ (∀ b ∈ [Bid.mk 1 6 200 0, Bid.mk 2 5 150 0], 0 < b.quantity)
    ∧ (∀ a ∈ (allocate_cores [Bid.mk 1 6 200 0, Bid.mk 2 5 150 0] 10 150).1,
        0 < a.allocated) :=
  ⟨by norm_num, by decide,
    allocations_positive [Bid.mk 1 6 200 0, Bid.mk 2 5 150 0] 10 150
      (by norm_num) (by decide)⟩

/-- C8, counterexample: the clearing engine performs no configuration
validation.  With supply = -1 it completes the clearing computation and
returns clearing price 150 and capacity 1; with premium = 1/2 < 1 and
with reserve price -10 it silently filters everything and returns the
no-demand outcome.  None of these inputs is rejected before clearing. -/
theorem no_failfast_counterexample :
    compute_clearing_price [⟨1, 3, 150, 0⟩] (-1) 100 2 = (150, 1, [⟨1, 3, 150, 0⟩])
    ∧ compute_clearing_price [⟨1, 3, 150, 0⟩] 10 100 (1/2) = (0, 0, [])
    ∧ compute_clearing_price [⟨1, 3, 5, 0⟩] 10 (-10) 2 = (0, 0, []) := by
  refine ⟨?_, ?_, ?_⟩ <;>
    norm_num [compute_clearing_price, clampBids, validBids, clearFromSorted, sortBids,
      List.insertionSort, cumQty, searchLeft, totalQty, pyInt, min_def,
      List.getLastD, List.getD, Int.ceil_neg]

/-- C8 (amended): the only input validation in the auction path is the
length check of the dataframe constructor: `parse_bids` fails exactly on
mismatched quantity/price/id sequence lengths.  Non-positive supply,
premium below 1 and negative reserve prices are not rejected; the
clearing computation runs on them and returns ordinary outcomes. -/
theorem validation_behavior :
    (∀ (quantities prices : List ℚ) (player_ids : List ℕ) (rand : ℕ → ℚ),
        (parse_bids quantities prices player_ids rand).isSome
          ↔ (quantities.length = player_ids.length
              ∧ prices.length = player_ids.length))
    ∧ compute_clearing_price [⟨1, 3, 150, 0⟩] (-1) 100 2 = (150, 1, [⟨1, 3, 150, 0⟩])
    ∧ compute_clearing_price [⟨1, 3, 150, 0⟩] 10 100 (1/2) = (0, 0, [])
    ∧ compute_clearing_price [⟨1, 3, 5, 0⟩] 10 (-10) 2 = (0, 0, []) := by
  refine ⟨?_, ?_, ?_, ?_⟩
  · intro quantities prices player_ids rand
    unfold parse_bids
    split <;> rename_i h <;> simp [h]
  · norm_num [compute_clearing_price, clampBids, validBids, clearFromSorted, sortBids,
      List.insertionSort, cumQty, searchLeft, totalQty, pyInt, min_def,
      List.getLastD, List.getD, Int.ceil_neg]
  · norm_num [compute_clearing_price, clampBids, validBids, clearFromSorted, sortBids,
      List.insertionSort, cumQty, searchLeft, totalQty, pyInt, min_def,
      List.getLastD, List.getD]
  · norm_num [compute_clearing_price, clampBids, validBids, clearFromSorted, sortBids,
      List.insertionSort, cumQty, searchLeft, totalQty, pyInt, min_def,
      List.getLastD, List.getD]

end Coretime
